import Mathlib

/-!
Verification development for the live football-betting dashboard.

The repository's quasi-algorithmic pieces are embedded shallowly:

* `getLatestMainMarketOdd` (src/components/LiveStatsTable.tsx, lines 13-61):
  main-line odds reconciliation over a 7-minute window;
* `parseStats` (src/unnamed/part_000, lines 86-100): per-minute stats parser;
* `calculateAPIScore` (src/unnamed/part_002, lines 76-84) and `apiChartData`
  (src/unnamed/part_003, lines 323-330): pressure scoring;
* `tensionLevel` (src/unnamed/part_003, lines 661-666 and src/unnamed/part_004,
  lines 84-89): tension/momentum level;
* `calculateProfitLoss` (src/unnamed/part_006, lines 37-45): ticket settlement;
* `getInPlayEvents` / `getMatchDetails` / `getMatchOdds` (src/unnamed/part_000,
  lines 53-84): odds/match client error handling;
* `saveAllTickets` (src/components/TicketManager.tsx, lines 40-51).

JavaScript numbers are embedded as exact rationals (`ℚ`) where the code does
real arithmetic, as `Int` where the values are integral minutes/counts, and as
`Option Int` where `parseInt` may produce `NaN` (`none` models `NaN`).
-/

namespace ProFootball

/-- One entry of an odds history array, as consumed by
`getLatestMainMarketOdd` in src/components/LiveStatsTable.tsx: a quote with
its match minute, its handicap line (a string in the source) and its price
payload (the `over` price, the field read by the over/under table). -/
structure OddsHistoryItem where
  minute : Int
  handicap : String
  over : ℚ
deriving DecidableEq, Repr

/-- `Math.max(0, latestMinute - 7)` of LiveStatsTable.tsx line 23. -/
def relevantTimeThreshold (lastEntry : OddsHistoryItem) : Int :=
  max 0 (lastEntry.minute - 7)

/-- `history.filter(o => o.minute >= relevantTimeThreshold)`
(LiveStatsTable.tsx line 26). -/
def recentOddsOf (history : List OddsHistoryItem) (lastEntry : OddsHistoryItem) :
    List OddsHistoryItem :=
  history.filter (fun o => relevantTimeThreshold lastEntry ≤ o.minute)

/-- One step of the `reduce` on LiveStatsTable.tsx lines 34-38:
`acc[handicap] = (acc[handicap] || 0) + 1`.  A JS object is embedded as an
association list in key-creation order: an existing key has its count bumped,
a new key is appended at the end. -/
def insertCount (acc : List (String × Nat)) (h : String) : List (String × Nat) :=
  if acc.any (fun p => p.1 == h) then
    acc.map (fun p => if p.1 == h then (p.1, p.2 + 1) else p)
  else
    acc ++ [(h, 1)]

/-- `recentOdds.reduce(...)` of LiveStatsTable.tsx lines 34-38: the handicap
frequency table of the window, in key-creation order. -/
def handicapCounts (l : List OddsHistoryItem) : List (String × Nat) :=
  l.foldl (fun acc o => insertCount acc o.handicap) []

/-- Value of a non-empty all-digit character list, `none` otherwise. -/
def digitsVal? : List Char → Option Nat
  | [] => none
  | [c] => if c.isDigit then some (c.toNat - 48) else none
  | c :: cs =>
    if c.isDigit then
      (digitsVal? cs).map (fun v => (c.toNat - 48) * 10 ^ cs.length + v)
    else none

/-- The numeric value of a string that is the canonical decimal form of a
natural number (no sign, no leading zero except `"0"` itself), `none`
otherwise. -/
def canonNatVal? (s : String) : Option Nat :=
  match s.toList with
  | [] => none
  | [c] => digitsVal? [c]
  | c :: cs => if c == '0' then none else digitsVal? (c :: cs)

/-- Whether a string is a canonical array-index property key in JavaScript
(the decimal form of an integer `0 ≤ n < 2^32 - 1`); such keys are enumerated
first, in ascending numeric order, by `for...in`. -/
def isArrayIndexKey (s : String) : Bool :=
  match canonNatVal? s with
  | some n => n < 2 ^ 32 - 1
  | none => false

/-- Numeric value used to order array-index property keys. -/
def keyVal (p : String × Nat) : Nat := (canonNatVal? p.1).getD 0

/-- Insertion into a list sorted by `keyVal`. -/
def insortPair (p : String × Nat) : List (String × Nat) → List (String × Nat)
  | [] => [p]
  | q :: rest => if keyVal p ≤ keyVal q then p :: q :: rest else q :: insortPair p rest

/-- Insertion sort by `keyVal`. -/
def sortPairs : List (String × Nat) → List (String × Nat)
  | [] => []
  | p :: rest => insortPair p (sortPairs rest)

/-- The `for...in` enumeration order over the frequency table
(LiveStatsTable.tsx line 43): array-index-like keys first in ascending numeric
order, then the remaining keys in creation order. -/
def forInOrder (l : List (String × Nat)) : List (String × Nat) :=
  sortPairs (l.filter (fun p => isArrayIndexKey p.1)) ++
    l.filter (fun p => !isArrayIndexKey p.1)

/-- Loop body of the scan on LiveStatsTable.tsx lines 43-48: take the key when
its count is strictly greater than the running maximum. -/
def selStep (best : Option String × Nat) (p : String × Nat) : Option String × Nat :=
  if best.2 < p.2 then (some p.1, p.2) else best

/-- The scan on LiveStatsTable.tsx lines 41-48: starting from
`mainHandicap = null; maxCount = 0`, take each key whose count is strictly
greater than the running maximum. -/
def selectMaxKey (l : List (String × Nat)) : Option String :=
  (l.foldl selStep ((none : Option String), 0)).1

/-- The backward search of LiveStatsTable.tsx lines 52-56: the latest entry of
the whole history carrying handicap `h`. -/
def latestWith (history : List OddsHistoryItem) (h : String) : Option OddsHistoryItem :=
  history.reverse.find? (fun o => o.handicap == h)

/-- Result of the backward search (LiveStatsTable.tsx lines 52-56): the found
entry, or the fallback to the last entry (line 60) when nothing matched. -/
def pickFound (lastEntry : OddsHistoryItem) : Option OddsHistoryItem → Option OddsHistoryItem
  | some item => some item
  | none => some lastEntry

/-- Lines 50-60 of LiveStatsTable.tsx, applied to the selected main handicap.
Note the truthiness test `if (mainHandicap)` on line 51: a `null` result and
an empty-string handicap are both falsy and fall through to the last entry. -/
def resolveMain (history : List OddsHistoryItem) (lastEntry : OddsHistoryItem) :
    Option String → Option OddsHistoryItem
  | some mainHandicap =>
    if mainHandicap ≠ "" then pickFound lastEntry (latestWith history mainHandicap)
    else some lastEntry
  | none => some lastEntry

/-- Body of `getLatestMainMarketOdd` once the last entry is known
(LiveStatsTable.tsx lines 21-60). -/
def mainOddFor (history : List OddsHistoryItem) (lastEntry : OddsHistoryItem) :
    Option OddsHistoryItem :=
  if (recentOddsOf history lastEntry).isEmpty then some lastEntry
  else
    resolveMain history lastEntry
      (selectMaxKey (forInOrder (handicapCounts (recentOddsOf history lastEntry))))

/-- `getLatestMainMarketOdd` of src/components/LiveStatsTable.tsx lines 13-61. -/
def getLatestMainMarketOdd (history : List OddsHistoryItem) : Option OddsHistoryItem :=
  match history.getLast? with
  | none => none
  | some lastEntry => mainOddFor history lastEntry

/-- The points of `history` inside the reconciliation window (empty for an
empty history). -/
def windowOf (history : List OddsHistoryItem) : List OddsHistoryItem :=
  match history.getLast? with
  | none => []
  | some lastEntry => recentOddsOf history lastEntry

/-- Number of points of `l` quoting handicap `h`. -/
def countOcc (l : List OddsHistoryItem) (h : String) : Nat :=
  l.countP (fun o => o.handicap == h)

/-- Handicap `h` strictly dominates in frequency among the points inside the
reconciliation window of `history`. -/
def StrictlyDominant (history : List OddsHistoryItem) (h : String) : Prop :=
  0 < countOcc (windowOf history) h ∧
    ∀ h', h' ≠ h → countOcc (windowOf history) h' < countOcc (windowOf history) h

/-- Strict dominance only needs checking against the handicaps that occur in
the window, which makes it decidable. -/
instance (history : List OddsHistoryItem) (h : String) :
    Decidable (StrictlyDominant history h) :=
  decidable_of_iff
    (0 < countOcc (windowOf history) h ∧
      ∀ h' ∈ (windowOf history).map OddsHistoryItem.handicap, h' ≠ h →
        countOcc (windowOf history) h' < countOcc (windowOf history) h)
    (by
      constructor
      · rintro ⟨hpos, hall⟩
        refine ⟨hpos, fun h' hne => ?_⟩
        by_cases hmem : h' ∈ (windowOf history).map OddsHistoryItem.handicap
        · exact hall h' hmem hne
        · have hz : countOcc (windowOf history) h' = 0 := by
            unfold countOcc
            rw [List.countP_eq_zero]
            intro o ho hbeq
            exact hmem (List.mem_map.mpr ⟨o, ho, beq_iff_eq.mp hbeq⟩)
          rw [hz]
          exact hpos
      · rintro ⟨hpos, hall⟩
        exact ⟨hpos, fun h' _ hne => hall h' hne⟩)

/-- Bumping a frequency function at one key. -/
def bump (f : String → Nat) (h0 h : String) : Nat :=
  f h + if h = h0 then 1 else 0

/-- The three-point odds history of the end-to-end scenario of the spec:
(minute 10, "0.5", over 0.90), (minute 12, "0.5", over 0.88),
(minute 14, "0.75", over 0.95). -/
def scenarioHistory : List OddsHistoryItem :=
  [⟨10, "0.5", 9 / 10⟩, ⟨12, "0.5", 88 / 100⟩, ⟨14, "0.75", 95 / 100⟩]

/-! ### Stats parser (src/unnamed/part_000, lines 86-100) -/

/-- Value of the longest digit run, accumulating left to right. -/
def digitRun (isDig : Char → Bool) (toVal : Char → Nat) (base : Nat) :
    Nat → List Char → Nat
  | acc, [] => acc
  | acc, c :: cs =>
    if isDig c then digitRun isDig toVal base (base * acc + toVal c) cs else acc

/-- Value of a non-empty longest digit prefix, `none` (JS `NaN`) when the
first character is not a digit. -/
def digitRunVal? (isDig : Char → Bool) (toVal : Char → Nat) (base : Nat) :
    List Char → Option Nat
  | [] => none
  | c :: cs => if isDig c then some (digitRun isDig toVal base (toVal c) cs) else none

/-- Hexadecimal digit test. -/
def isHexDig (c : Char) : Bool :=
  c.isDigit || ('a' ≤ c && c ≤ 'f') || ('A' ≤ c && c ≤ 'F')

/-- Hexadecimal digit value. -/
def hexVal (c : Char) : Nat :=
  if c.isDigit then c.toNat - 48
  else if 'a' ≤ c && c ≤ 'f' then c.toNat - 87
  else c.toNat - 55

/-- JavaScript `parseInt(s)` with the radix argument omitted: skip leading
whitespace, read an optional sign, detect a `0x`/`0X` prefix (hexadecimal),
then take the value of the longest digit prefix; an empty digit prefix gives
`NaN`, embedded as `none`. -/
def jsParseInt (s : String) : Option Int :=
  let cs := s.toList.dropWhile Char.isWhitespace
  let signed : Int × List Char :=
    match cs with
    | '-' :: rest => (-1, rest)
    | '+' :: rest => (1, rest)
    | rest => (1, rest)
  let mag : Option Nat :=
    match signed.2 with
    | '0' :: 'x' :: hs => digitRunVal? isHexDig hexVal 16 hs
    | '0' :: 'X' :: hs => digitRunVal? isHexDig hexVal 16 hs
    | body => digitRunVal? Char.isDigit (fun c => c.toNat - 48) 10 body
  mag.map (fun n => signed.1 * (n : Int))

/-- The optional `Record<string, string[]>` argument of `parseStats`,
embedded as an association list in property order (object keys are unique). -/
abbrev StatsMap := List (String × List String)

/-- JS property read `stats?.[key]`. -/
def jsRecordGet (stats : Option StatsMap) (key : String) : Option (List String) :=
  stats.bind (fun l => (l.find? (fun p => p.1 == key)).map (fun p => p.2))

/-- JS `s || '0'`: the empty string is falsy. -/
def jsOrDefault (s dflt : String) : String := if s = "" then dflt else s

/-- The local `parse` helper of `parseStats` (part_000 lines 87-90):
`arr && arr.length === 2 ? [parseInt(arr[0] || '0'), parseInt(arr[1] || '0')]
: [0, 0]`.  A JS number is embedded as `Option Int` with `none` for `NaN`. -/
def parsePair (stats : Option StatsMap) (key : String) : Option Int × Option Int :=
  match jsRecordGet stats key with
  | some arr =>
    if arr.length = 2 then
      (jsParseInt (jsOrDefault (arr.getD 0 "") "0"),
        jsParseInt (jsOrDefault (arr.getD 1 "") "0"))
    else (some 0, some 0)
  | none => (some 0, some 0)

/-- The record produced by `parseStats` (part_000 lines 91-99): seven named
`[home, away]` pairs.  Entries are `Option Int` because `parseInt` can yield
`NaN`. -/
structure ParsedStats where
  attacks : Option Int × Option Int
  dangerous_attacks : Option Int × Option Int
  on_target : Option Int × Option Int
  off_target : Option Int × Option Int
  corners : Option Int × Option Int
  yellowcards : Option Int × Option Int
  redcards : Option Int × Option Int
deriving DecidableEq, Repr

/-- `parseStats` of src/unnamed/part_000 lines 86-100. -/
def parseStats (stats : Option StatsMap) : ParsedStats :=
  { attacks := parsePair stats "attacks"
    dangerous_attacks := parsePair stats "dangerous_attacks"
    on_target := parsePair stats "on_target"
    off_target := parsePair stats "off_target"
    corners := parsePair stats "corners"
    yellowcards := parsePair stats "yellowcards"
    redcards := parsePair stats "redcards" }

/-- Projection of the parsed record at one of the seven named keys. -/
def statField (r : ParsedStats) (key : String) : Option (Option Int × Option Int) :=
  if key = "attacks" then some r.attacks
  else if key = "dangerous_attacks" then some r.dangerous_attacks
  else if key = "on_target" then some r.on_target
  else if key = "off_target" then some r.off_target
  else if key = "corners" then some r.corners
  else if key = "yellowcards" then some r.yellowcards
  else if key = "redcards" then some r.redcards
  else none

/-! ### Pressure scorer (src/unnamed/part_002 lines 76-84, part_003 lines
323-330) -/

/-- The per-minute stats record as consumed by `calculateAPIScore`: seven
`[home, away]` numeric pairs, embedded as exact rationals. -/
structure ProcessedStats where
  attacks : ℚ × ℚ
  dangerous_attacks : ℚ × ℚ
  on_target : ℚ × ℚ
  off_target : ℚ × ℚ
  corners : ℚ × ℚ
  yellowcards : ℚ × ℚ
  redcards : ℚ × ℚ
deriving DecidableEq, Repr

/-- `pair[sideIndex]` for `sideIndex: 0 | 1`. -/
def sideVal (p : ℚ × ℚ) : Fin 2 → ℚ
  | 0 => p.1
  | 1 => p.2

/-- `calculateAPIScore` of src/unnamed/part_002 lines 76-84:
`(shots * 1.0) + (onTarget * 3.0) + (corners * 0.7) + (dangerous * 0.1)` with
`shots = onTarget + offTarget`, and `0` for an undefined stats record. -/
def calculateAPIScore (stats : Option ProcessedStats) (sideIndex : Fin 2) : ℚ :=
  match stats with
  | none => 0
  | some s =>
    (sideVal s.on_target sideIndex + sideVal s.off_target sideIndex) * 1 +
      sideVal s.on_target sideIndex * 3 +
      sideVal s.corners sideIndex * 0.7 +
      sideVal s.dangerous_attacks sideIndex * 0.1

/-- One point of the API chart series. -/
structure ApiPoint where
  minute : Int
  homeApi : ℚ
  awayApi : ℚ
  gap : ℚ
deriving DecidableEq, Repr

/-- Sorted insertion for integer keys. -/
def insortInt (x : Int) : List Int → List Int
  | [] => [x]
  | y :: rest => if x ≤ y then x :: y :: rest else y :: insortInt x rest

/-- `Object.keys(statsHistory).map(Number).sort((a, b) => a - b)`. -/
def sortInts : List Int → List Int
  | [] => []
  | x :: rest => insortInt x (sortInts rest)

/-- `statsHistory[minute]`: the per-minute history record, embedded as an
association list with unique keys. -/
def lookupStats (statsHistory : List (Int × ProcessedStats)) (minute : Int) :
    Option ProcessedStats :=
  (statsHistory.find? (fun p => p.1 == minute)).map (fun p => p.2)

/-- `apiChartData` of src/unnamed/part_003 lines 323-330: one point per
recorded minute, in ascending minute order, with
`gap = homeApi - awayApi`. -/
def apiChartData (statsHistory : List (Int × ProcessedStats)) : List ApiPoint :=
  (sortInts (statsHistory.map (fun p => p.1))).map (fun minute =>
    { minute := minute
      homeApi := calculateAPIScore (lookupStats statsHistory minute) 0
      awayApi := calculateAPIScore (lookupStats statsHistory minute) 1
      gap := calculateAPIScore (lookupStats statsHistory minute) 0 -
        calculateAPIScore (lookupStats statsHistory minute) 1 })

/-! ### Tension level (src/unnamed/part_003 lines 661-666, part_004 lines
84-89) -/

/-- `reduce((acc, curr) => acc + Math.abs(curr.homeApi + curr.awayApi), 0)`. -/
def sumAbsTotal (l : List ApiPoint) : ℚ :=
  l.foldl (fun acc curr => acc + |curr.homeApi + curr.awayApi|) 0

/-- `tensionLevel` of src/unnamed/part_003 lines 661-666: constant 20 below 5
points, else `Math.min(100, Math.max(10, activity * 2))` over the last 5
points. -/
def tensionLevel5 (apiData : List ApiPoint) : ℚ :=
  if apiData.length < 5 then 20
  else min 100 (max 10 (sumAbsTotal (apiData.drop (apiData.length - 5)) * 2))

/-- `tensionLevel` of src/unnamed/part_004 lines 84-89: constant 20 below 3
points, else `Math.min(100, Math.max(15, activity * 3.5))` over the last 3
points. -/
def tensionLevel3 (apiData : List ApiPoint) : ℚ :=
  if apiData.length < 3 then 20
  else min 100 (max 15 (sumAbsTotal (apiData.drop (apiData.length - 3)) * 3.5))

/-- Modelled from the spec claim's words, for refinement comparison only (it
is NOT in the source): a constant factor times the sum over the trailing
window of the absolute per-minute GAP between the two sides' scores, clamped
to [10, 100] (5-point variant, factor 2). -/
def tensionSpecGap5 (apiData : List ApiPoint) : ℚ :=
  min 100 (max 10 (2 * ((apiData.reverse.take 5).map (fun p => |p.gap|)).sum))

/-- The 5-point tension formula restated over the trailing window with the
absolute per-minute TOTAL `|homeApi + awayApi|` (the quantity the source
actually sums). -/
def tensionSpecTotal5 (apiData : List ApiPoint) : ℚ :=
  min 100 (max 10 (2 * ((apiData.reverse.take 5).map
    (fun p => |p.homeApi + p.awayApi|)).sum))

/-- The 3-point tension formula restated over the trailing window with the
absolute per-minute TOTAL `|homeApi + awayApi|`. -/
def tensionSpecTotal3 (apiData : List ApiPoint) : ℚ :=
  min 100 (max 15 ((7 / 2) * ((apiData.reverse.take 3).map
    (fun p => |p.homeApi + p.awayApi|)).sum))

/-! ### Ticket ledger (src/unnamed/part_006 lines 37-45,
src/components/TicketManager.tsx lines 40-51) -/

/-- Ticket settlement states. -/
inductive TicketStatus where
  | pending
  | won
  | lost
  | won_half
  | lost_half
  | push
deriving DecidableEq, Repr

/-- A user-entered bet ticket (the fields read by the embedded functions). -/
structure BetTicket where
  id : Nat
  matchId : String
  betType : String
  handicap : String
  odds : ℚ
  stake : ℚ
  minute : Int
  status : TicketStatus
  notes : String
deriving DecidableEq, Repr

/-- `calculateProfitLoss` of src/unnamed/part_006 lines 37-45. -/
def calculateProfitLoss (ticket : BetTicket) : ℚ :=
  if ticket.status = TicketStatus.pending then 0
  else if ticket.status = TicketStatus.won then ticket.stake * ticket.odds - ticket.stake
  else if ticket.status = TicketStatus.lost then -ticket.stake
  else if ticket.status = TicketStatus.won_half then
    (ticket.stake * ticket.odds - ticket.stake) / 2
  else if ticket.status = TicketStatus.lost_half then -(ticket.stake / 2)
  else if ticket.status = TicketStatus.push then 0
  else 0

/-- `saveAllTickets` of src/components/TicketManager.tsx lines 40-51: read
the stored list, drop the current match's tickets, append the updated ones.
The `localStorage` round trip is embedded as the stored list in and out. -/
def saveAllTickets (allTickets : List BetTicket) (matchId : String)
    (updatedTickets : List BetTicket) : List BetTicket :=
  allTickets.filter (fun t => t.matchId != matchId) ++ updatedTickets

/-! ### Odds/match client (src/unnamed/part_000 lines 53-84).  The outcome of
`safeFetch` (network error, non-2xx after retries, or thrown parse error as
`Except.error`; an empty body as `Except.ok none`; a parsed body as
`Except.ok (some body)`) is passed in as an explicit argument, and each
client function returns `Except` so that an escaping exception would be
visible as `Except.error`. -/

/-- A JSON primitive as needed by the `success` checks. -/
inductive JsonPrim where
  | num (n : Int)
  | str (s : String)
deriving DecidableEq, Repr

/-- The league object of an in-play event (the field the filter reads). -/
structure League where
  name : String
deriving DecidableEq, Repr

/-- An in-play event (the fields the client functions read). -/
structure MatchInfo where
  id : String
  league : Option League
deriving DecidableEq, Repr

/-- A parsed in-play response body. -/
structure InPlayBody where
  success : Option JsonPrim
  results : Option (List MatchInfo)
deriving DecidableEq, Repr

/-- A parsed odds response body. -/
structure OddsBody where
  success : Option JsonPrim
deriving DecidableEq, Repr

/-- `String.prototype.toLowerCase`. -/
def jsToLower (s : String) : String := String.map Char.toLower s

/-- Whether `sub` occurs as a contiguous run of `l`. -/
def containsRun (sub : List Char) : List Char → Bool
  | [] => sub.isEmpty
  | c :: cs => List.isPrefixOf sub (c :: cs) || containsRun sub cs

/-- `String.prototype.includes`. -/
def jsIncludes (s sub : String) : Bool := containsRun sub.toList s.toList

/-- Lines 59-62 of part_000: the success check and the esoccer league
filter, applied to a parsed (possibly `null`) body. -/
def inPlayResult (data : Option InPlayBody) : List MatchInfo :=
  if (data.bind InPlayBody.success) ≠ some (JsonPrim.num 1) ∧
      (data.bind InPlayBody.success) ≠ some (JsonPrim.str "1") then []
  else
    ((data.bind InPlayBody.results).getD []).filter
      (fun event =>
        match event.league with
        | some lg => !(jsIncludes (jsToLower lg.name) "esoccer")
        | none => false)

/-- `getInPlayEvents` of src/unnamed/part_000 lines 53-64. -/
def getInPlayEvents (token : String) (fetched : Except String (Option InPlayBody)) :
    Except String (List MatchInfo) :=
  if token = "DEMO_MODE" then Except.ok []
  else if token = "" then Except.ok []
  else
    match fetched with
    | Except.error _ => Except.ok []
    | Except.ok data => Except.ok (inPlayResult data)

/-- `getMatchDetails` of src/unnamed/part_000 lines 66-74. -/
def getMatchDetails (token eventId : String)
    (fetched : Except String (Option InPlayBody)) :
    Except String (Option MatchInfo) :=
  if token = "DEMO_MODE" then Except.ok none
  else
    match fetched with
    | Except.error _ => Except.ok none
    | Except.ok data =>
      Except.ok (((data.bind InPlayBody.results).getD []).find?
        (fun e => e.id == eventId))

/-- Lines 81-82 of part_000: the falsiness and success-flag check on the
parsed odds body. -/
def oddsResult (data : Option OddsBody) : Option OddsBody :=
  match data with
  | none => none
  | some body =>
    if body.success = some (JsonPrim.num 0) ∨
        body.success = some (JsonPrim.str "0") then none
    else some body

/-- `getMatchOdds` of src/unnamed/part_000 lines 76-84. -/
def getMatchOdds (token eventId : String)
    (fetched : Except String (Option OddsBody)) :
    Except String (Option OddsBody) :=
  if token = "DEMO_MODE" then Except.ok none
  else
    match fetched with
    | Except.error _ => Except.ok none
    | Except.ok data => Except.ok (oddsResult data)

/-! ### Helper lemmas -/

/-- `insertCount` turns a faithful frequency table for `f` into one for
`bump f h0`. -/
theorem insertCount_spec (acc : List (String × Nat)) (f : String → Nat) (h0 : String)
    (hv : ∀ p ∈ acc, p.2 = f p.1 ∧ 0 < p.2)
    (he : ∀ h, 0 < f h → ∃ n, (h, n) ∈ acc) :
    (∀ p ∈ insertCount acc h0, p.2 = bump f h0 p.1 ∧ 0 < p.2) ∧
      (∀ h, 0 < bump f h0 h → ∃ n, (h, n) ∈ insertCount acc h0) := by
  unfold insertCount
  by_cases hany : acc.any (fun p => p.1 == h0)
  · rw [if_pos hany]
    constructor
    · intro p hp
      rcases List.mem_map.mp hp with ⟨q, hq, hpq⟩
      rcases hv q hq with ⟨hqv, hqpos⟩
      by_cases hkey : q.1 == h0
      · rw [if_pos hkey] at hpq
        subst hpq
        have : q.1 = h0 := beq_iff_eq.mp hkey
        simp [bump, this, hqv]
      · rw [if_neg hkey] at hpq
        subst hpq
        have hne : q.1 ≠ h0 := fun he' => hkey (beq_iff_eq.mpr he')
        exact ⟨by simp [bump, hne, hqv], hqpos⟩
    · intro h hh
      by_cases hkey : h = h0
      · subst hkey
        rcases List.any_eq_true.mp hany with ⟨q, hq, hq0⟩
        refine ⟨q.2 + 1, List.mem_map.mpr ⟨q, hq, ?_⟩⟩
        rw [if_pos hq0]
        have : q.1 = h := beq_iff_eq.mp hq0
        rw [this]
      · have : 0 < f h := by simpa [bump, hkey] using hh
        rcases he h this with ⟨n, hn⟩
        by_cases hnk : h == h0
        · exact absurd (beq_iff_eq.mp hnk) hkey
        · refine ⟨n, List.mem_map.mpr ⟨(h, n), hn, ?_⟩⟩
          rw [if_neg hnk]
  · rw [if_neg hany]
    have hno : ∀ p ∈ acc, p.1 ≠ h0 := by
      intro p hp he'
      exact hany (List.any_eq_true.mpr ⟨p, hp, beq_iff_eq.mpr he'⟩)
    have hf0 : f h0 = 0 := by
      by_contra hne
      rcases he h0 (Nat.pos_of_ne_zero hne) with ⟨n, hn⟩
      exact hno (h0, n) hn rfl
    constructor
    · intro p hp
      rcases List.mem_append.mp hp with hp | hp
      · rcases hv p hp with ⟨hpv, hppos⟩
        have hne : p.1 ≠ h0 := hno p hp
        exact ⟨by simp [bump, hne, hpv], hppos⟩
      · have : p = (h0, 1) := by simpa using hp
        subst this
        simp [bump, hf0]
    · intro h hh
      by_cases hkey : h = h0
      · subst hkey
        exact ⟨1, List.mem_append.mpr (Or.inr (by simp))⟩
      · have : 0 < f h := by simpa [bump, hkey] using hh
        rcases he h this with ⟨n, hn⟩
        exact ⟨n, List.mem_append.mpr (Or.inl hn)⟩

/-- Invariant of the frequency-table fold of LiveStatsTable.tsx lines 34-38. -/
theorem handicapCounts_go (l : List OddsHistoryItem) :
    ∀ (acc : List (String × Nat)) (f : String → Nat),
    (∀ p ∈ acc, p.2 = f p.1 ∧ 0 < p.2) →
    (∀ h, 0 < f h → ∃ n, (h, n) ∈ acc) →
    (∀ p ∈ l.foldl (fun a o => insertCount a o.handicap) acc,
        p.2 = f p.1 + countOcc l p.1 ∧ 0 < p.2) ∧
      (∀ h, 0 < f h + countOcc l h →
        ∃ n, (h, n) ∈ l.foldl (fun a o => insertCount a o.handicap) acc) := by
  induction l with
  | nil =>
    intro acc f hv he
    constructor
    · intro p hp
      have := hv p (by simpa using hp)
      simpa [countOcc] using this
    · intro h hh
      have : 0 < f h := by simpa [countOcc] using hh
      simpa using he h this
  | cons o l ih =>
    intro acc f hv he
    have hstep := insertCount_spec acc f o.handicap hv he
    have hmain := ih (insertCount acc o.handicap) (bump f o.handicap) hstep.1 hstep.2
    have hcnt : ∀ h, bump f o.handicap h + countOcc l h = f h + countOcc (o :: l) h := by
      intro h
      unfold bump countOcc
      rw [List.countP_cons]
      by_cases hkey : h = o.handicap
      · have : (o.handicap == h) = true := beq_iff_eq.mpr hkey.symm
        simp [hkey, this]
        omega
      · have : (o.handicap == h) = false := by
          rw [beq_eq_false_iff_ne]
          exact fun he' => hkey he'.symm
        simp [hkey, this]
    rw [List.foldl_cons]
    constructor
    · intro p hp
      have := hmain.1 p hp
      rwa [hcnt p.1] at this
    · intro h hh
      rw [← hcnt h] at hh
      exact hmain.2 h hh

/-- The frequency table of LiveStatsTable.tsx lines 34-38 is faithful: every
pair holds its key's frequency in the window, every frequency is positive, and
every handicap of the window appears. -/
theorem handicapCounts_spec (l : List OddsHistoryItem) :
    (∀ p ∈ handicapCounts l, p.2 = countOcc l p.1 ∧ 0 < p.2) ∧
      (∀ h, 0 < countOcc l h → ∃ n, (h, n) ∈ handicapCounts l) := by
  have := handicapCounts_go l [] (fun _ => 0) (by simp) (by simp)
  simpa [handicapCounts] using this

/-- Membership is preserved by sorted insertion. -/
theorem mem_insortPair (p x : String × Nat) (l : List (String × Nat)) :
    x ∈ insortPair p l ↔ x = p ∨ x ∈ l := by
  induction l with
  | nil => simp [insortPair]
  | cons q rest ih =>
    unfold insortPair
    by_cases hle : keyVal p ≤ keyVal q
    · rw [if_pos hle]
      simp
    · rw [if_neg hle]
      simp [ih]
      tauto

/-- Membership is preserved by the insertion sort. -/
theorem mem_sortPairs (x : String × Nat) (l : List (String × Nat)) :
    x ∈ sortPairs l ↔ x ∈ l := by
  induction l with
  | nil => simp [sortPairs]
  | cons q rest ih =>
    unfold sortPairs
    rw [mem_insortPair]
    simp [ih]

/-- Membership is preserved by `for...in` reordering. -/
theorem mem_forInOrder (x : String × Nat) (l : List (String × Nat)) :
    x ∈ forInOrder l ↔ x ∈ l := by
  unfold forInOrder
  rw [List.mem_append, mem_sortPairs]
  constructor
  · rintro (hx | hx)
    · exact (List.mem_filter.mp hx).1
    · exact (List.mem_filter.mp hx).1
  · intro hx
    by_cases hidx : isArrayIndexKey x.1
    · exact Or.inl (List.mem_filter.mpr ⟨hx, hidx⟩)
    · exact Or.inr (List.mem_filter.mpr ⟨hx, by simp [hidx]⟩)

/-- The scan never moves off a running maximum that nothing exceeds. -/
theorem selGo_le (l : List (String × Nat)) :
    ∀ (b : Option String) (mc : Nat), (∀ p ∈ l, p.2 ≤ mc) →
    l.foldl selStep (b, mc) = (b, mc) := by
  induction l with
  | nil => intro b mc _; rfl
  | cons q rest ih =>
    intro b mc hall
    rw [List.foldl_cons]
    have hq : q.2 ≤ mc := hall q (by simp)
    have : selStep (b, mc) q = (b, mc) := by
      unfold selStep
      rw [if_neg (by simpa using Nat.not_lt.mpr hq)]
    rw [this]
    exact ih b mc (fun p hp => hall p (by simp [hp]))

/-- The scan of LiveStatsTable.tsx lines 41-48 returns the key of a strictly
dominant count. -/
theorem selGo_dominant (l : List (String × Nat)) :
    ∀ (b : Option String) (mc : Nat) (h : String) (m : Nat),
    mc < m → (h, m) ∈ l → (∀ p ∈ l, p.2 ≤ m) → (∀ p ∈ l, p.2 = m → p.1 = h) →
    l.foldl selStep (b, mc) = (some h, m) := by
  induction l with
  | nil => intro b mc h m _ hmem _ _; cases hmem
  | cons q rest ih =>
    intro b mc h m hmc hmem hle hkey
    rw [List.foldl_cons]
    by_cases hq : mc < q.2
    · have hstep : selStep (b, mc) q = (some q.1, q.2) := by
        unfold selStep
        rw [if_pos hq]
      rw [hstep]
      by_cases hqm : q.2 = m
      · have hq1 : q.1 = h := hkey q (by simp) hqm
        rw [hq1, hqm]
        exact selGo_le rest (some h) m (fun p hp => hle p (by simp [hp]))
      · have hmem' : (h, m) ∈ rest := by
          rcases List.mem_cons.mp hmem with heq | hmem2
          · exact absurd (congrArg Prod.snd heq).symm hqm
          · exact hmem2
        have hq2 : q.2 < m := Nat.lt_of_le_of_ne (hle q (by simp)) hqm
        exact ih (some q.1) q.2 h m hq2 hmem'
          (fun p hp => hle p (by simp [hp])) (fun p hp => hkey p (by simp [hp]))
    · have hstep : selStep (b, mc) q = (b, mc) := by
        unfold selStep
        rw [if_neg hq]
      rw [hstep]
      have hmem' : (h, m) ∈ rest := by
        rcases List.mem_cons.mp hmem with heq | hmem2
        · exfalso
          have : q.2 = m := (congrArg Prod.snd heq).symm
          omega
        · exact hmem2
      exact ih b mc h m hmc hmem'
        (fun p hp => hle p (by simp [hp])) (fun p hp => hkey p (by simp [hp]))

/-- On a table whose head count nothing exceeds, the scan returns the head
key: with a full tie, the first enumerated candidate wins. -/
theorem selectMaxKey_head (h : String) (k : Nat) (rest : List (String × Nat))
    (hk : 0 < k) (hall : ∀ p ∈ rest, p.2 ≤ k) :
    selectMaxKey ((h, k) :: rest) = some h := by
  unfold selectMaxKey
  rw [List.foldl_cons]
  have hstep : selStep ((none : Option String), 0) (h, k) = (some h, k) := by
    unfold selStep
    rw [if_pos (by simpa using hk)]
  rw [hstep, selGo_le rest (some h) k hall]

/-- A strictly dominant handicap of the window is the one the scan selects. -/
theorem selectMaxKey_dominant (win : List OddsHistoryItem) (h : String)
    (hpos : 0 < countOcc win h)
    (hall : ∀ h', h' ≠ h → countOcc win h' < countOcc win h) :
    selectMaxKey (forInOrder (handicapCounts win)) = some h := by
  obtain ⟨spec1, spec2⟩ := handicapCounts_spec win
  obtain ⟨n, hn⟩ := spec2 h hpos
  have hnv : n = countOcc win h := (spec1 (h, n) hn).1
  have hmem : (h, countOcc win h) ∈ forInOrder (handicapCounts win) :=
    (mem_forInOrder _ _).mpr (hnv ▸ hn)
  have hle : ∀ p ∈ forInOrder (handicapCounts win), p.2 ≤ countOcc win h := by
    intro p hp
    have hpv := (spec1 p ((mem_forInOrder _ _).mp hp)).1
    by_cases hk : p.1 = h
    · rw [hpv, hk]
    · rw [hpv]
      exact le_of_lt (hall p.1 hk)
  have hkey : ∀ p ∈ forInOrder (handicapCounts win), p.2 = countOcc win h → p.1 = h := by
    intro p hp hpm
    by_contra hk
    have hpv := (spec1 p ((mem_forInOrder _ _).mp hp)).1
    have := hall p.1 hk
    omega
  unfold selectMaxKey
  rw [selGo_dominant _ none 0 h (countOcc win h) hpos hmem hle hkey]

/-- When the history has a last entry, `getLatestMainMarketOdd` runs the body. -/
theorem getLatestMainMarketOdd_of_getLast (history : List OddsHistoryItem)
    (lastEntry : OddsHistoryItem) (hlast : history.getLast? = some lastEntry) :
    getLatestMainMarketOdd history = mainOddFor history lastEntry := by
  unfold getLatestMainMarketOdd
  rw [hlast]

/-- A last entry is a member of the history. -/
theorem mem_of_getLast (history : List OddsHistoryItem) (lastEntry : OddsHistoryItem)
    (hlast : history.getLast? = some lastEntry) : lastEntry ∈ history := by
  have hrev : history.reverse.head? = some lastEntry := by
    rw [List.head?_reverse, hlast]
  cases hr : history.reverse with
  | nil => rw [hr] at hrev; cases hrev
  | cons a t =>
    rw [hr] at hrev
    have ha : a = lastEntry := by injection hrev
    rw [← List.mem_reverse, hr, ha]
    exact List.mem_cons_self _ _

/-- A member makes `isEmpty` false. -/
theorem isEmpty_false_of_mem (l : List OddsHistoryItem) (o : OddsHistoryItem)
    (ho : o ∈ l) : l.isEmpty = false := by
  cases l with
  | nil => cases ho
  | cons a t => rfl

/-- An occurrence of `h` anywhere in the history makes the backward search
succeed, with a hit that carries handicap `h`. -/
theorem latestWith_of_occ (history : List OddsHistoryItem) (h : String)
    (o : OddsHistoryItem) (ho : o ∈ history) (hoh : o.handicap = h) :
    ∃ item, latestWith history h = some item ∧ item.handicap = h := by
  have hsome : (history.reverse.find? (fun o => o.handicap == h)).isSome = true := by
    rw [List.find?_isSome]
    exact ⟨o, List.mem_reverse.mpr ho, beq_iff_eq.mpr hoh⟩
  obtain ⟨item, hitem⟩ := Option.isSome_iff_exists.mp hsome
  exact ⟨item, hitem, by simpa using List.find?_some hitem⟩

/-- Evaluation of the body when the window is non-empty, a non-empty-string
main handicap is selected, and the backward search hits. -/
theorem mainOddFor_found (history : List OddsHistoryItem) (lastEntry : OddsHistoryItem)
    (hempty : (recentOddsOf history lastEntry).isEmpty = false) (h : String)
    (hsel : selectMaxKey (forInOrder (handicapCounts (recentOddsOf history lastEntry))) =
      some h)
    (hne : h ≠ "") (item : OddsHistoryItem)
    (hitem : latestWith history h = some item) :
    mainOddFor history lastEntry = some item := by
  unfold mainOddFor
  rw [if_neg (by simp [hempty]), hsel]
  show (if h ≠ "" then pickFound lastEntry (latestWith history h) else some lastEntry) =
    some item
  rw [if_pos hne, hitem]
  rfl

/-! ### Claim theorems: main-line reconciliation (C1-C4) -/

/-- C1: for the odds history consisting of exactly (minute 10, handicap
"0.5", over 0.90), (minute 12, handicap "0.5", over 0.88), (minute 14,
handicap "0.75", over 0.95), `getLatestMainMarketOdd` returns the point with
handicap "0.5" at minute 12, i.e. the quote with over 0.88. -/
theorem getLatestMainMarketOdd_scenario :
    getLatestMainMarketOdd scenarioHistory = some ⟨12, "0.5", 88 / 100⟩ := rfl

/-- C2 counterexample: on the history [(10, ""), (11, ""), (14, "0.5")] the
empty-string handicap strictly dominates the window (2 occurrences vs 1),
but instead of the latest empty-handicap quote (minute 11) the function
returns the last entry (minute 14): `if (mainHandicap)` treats `""` as
falsy. -/
theorem getLatestMainMarketOdd_dominant_cex :
    StrictlyDominant [⟨10, "", 1⟩, ⟨11, "", 1⟩, ⟨14, "0.5", 2⟩] "" ∧
      (latestWith [⟨10, "", 1⟩, ⟨11, "", 1⟩, ⟨14, "0.5", 2⟩] "").map
        OddsHistoryItem.minute = some 11 ∧
      (getLatestMainMarketOdd [⟨10, "", 1⟩, ⟨11, "", 1⟩, ⟨14, "0.5", 2⟩]).map
        OddsHistoryItem.minute = some 14 :=
  ⟨by decide, by decide, by decide⟩

/-- C2 (amended): an empty history yields no quote; and whenever a
non-empty-string handicap strictly dominates in frequency among the points
inside the reconciliation window (minute at least `max 0 (last minute - 7)`),
the function returns the chronologically latest quote in the whole history
carrying that handicap. -/
theorem getLatestMainMarketOdd_dominant :
    getLatestMainMarketOdd [] = none ∧
      ∀ (history : List OddsHistoryItem) (h : String), h ≠ "" →
        StrictlyDominant history h →
        getLatestMainMarketOdd history = latestWith history h := by
  refine ⟨rfl, ?_⟩
  intro history h hne hdom
  obtain ⟨hpos, hall⟩ := hdom
  cases hlast : history.getLast? with
  | none =>
    exfalso
    unfold windowOf at hpos
    rw [hlast] at hpos
    simp [countOcc] at hpos
  | some lastEntry =>
    have hwineq : windowOf history = recentOddsOf history lastEntry := by
      unfold windowOf
      rw [hlast]
    rw [hwineq] at hpos hall
    obtain ⟨o, ho, hoh⟩ := List.countP_pos_iff.mp hpos
    have hsel := selectMaxKey_dominant (recentOddsOf history lastEntry) h hpos hall
    have hempty := isEmpty_false_of_mem _ o ho
    obtain ⟨item, hitem, hih⟩ :=
      latestWith_of_occ history h o (List.mem_filter.mp ho).1 (by simpa using hoh)
    rw [getLatestMainMarketOdd_of_getLast history lastEntry hlast,
      mainOddFor_found history lastEntry hempty h hsel hne item hitem, hitem]

/-- Witness for the amended C2 at the end-to-end scenario history with the
dominant handicap "0.5". -/
theorem getLatestMainMarketOdd_dominant_witness :
    ("0.5" : String) ≠ "" ∧ StrictlyDominant scenarioHistory "0.5" ∧
      getLatestMainMarketOdd scenarioHistory = latestWith scenarioHistory "0.5" :=
  ⟨by decide, by decide,
    getLatestMainMarketOdd_dominant.2 scenarioHistory "0.5" (by decide) (by decide)⟩

/-- C3 counterexample: the end-to-end scenario history lies wholly inside the
reconciliation window, yet the function returns the minute-12 point, not the
chronologically last point (minute 14). -/
theorem getLatestMainMarketOdd_short_history_cex :
    windowOf scenarioHistory = scenarioHistory ∧
      scenarioHistory.getLast?.map OddsHistoryItem.minute = some 14 ∧
      (getLatestMainMarketOdd scenarioHistory).map OddsHistoryItem.minute = some 12 :=
  ⟨rfl, by decide, by decide⟩

/-- C3 (amended): for a non-empty history lying wholly inside the
reconciliation window, the function returns the chronologically last point
provided the last point's handicap strictly dominates in frequency; it does
not do so unconditionally. -/
theorem getLatestMainMarketOdd_short_history (history : List OddsHistoryItem)
    (lastEntry : OddsHistoryItem) (hlast : history.getLast? = some lastEntry)
    (hwin : ∀ p ∈ history, relevantTimeThreshold lastEntry ≤ p.minute)
    (hdom : StrictlyDominant history lastEntry.handicap) :
    getLatestMainMarketOdd history = some lastEntry := by
  obtain ⟨hpos, hall⟩ := hdom
  have hwineq : windowOf history = recentOddsOf history lastEntry := by
    unfold windowOf
    rw [hlast]
  rw [hwineq] at hpos hall
  have hmemLast : lastEntry ∈ recentOddsOf history lastEntry := by
    apply List.mem_filter.mpr
    refine ⟨mem_of_getLast history lastEntry hlast, ?_⟩
    simpa using hwin lastEntry (mem_of_getLast history lastEntry hlast)
  have hempty := isEmpty_false_of_mem _ lastEntry hmemLast
  have hsel := selectMaxKey_dominant _ lastEntry.handicap hpos hall
  rw [getLatestMainMarketOdd_of_getLast history lastEntry hlast]
  by_cases hne : lastEntry.handicap = ""
  · unfold mainOddFor
    rw [if_neg (by simp [hempty])]
    rw [hne] at hsel
    rw [hsel]
    simp [resolveMain]
  · have hitem : latestWith history lastEntry.handicap = some lastEntry := by
      unfold latestWith
      have hrev : history.reverse.head? = some lastEntry := by
        rw [List.head?_reverse, hlast]
      cases hr : history.reverse with
      | nil => rw [hr] at hrev; cases hrev
      | cons a t =>
        rw [hr] at hrev
        have ha : a = lastEntry := by injection hrev
        subst ha
        simp [List.find?]
    exact mainOddFor_found history lastEntry hempty lastEntry.handicap hsel hne
      lastEntry hitem

/-- Witness for the amended C3: a two-point single-handicap history inside
the window returns its last point. -/
theorem getLatestMainMarketOdd_short_history_witness :
    getLatestMainMarketOdd [⟨10, "0.5", 1⟩, ⟨12, "0.5", 2⟩] = some ⟨12, "0.5", 2⟩ :=
  getLatestMainMarketOdd_short_history [⟨10, "0.5", 1⟩, ⟨12, "0.5", 2⟩]
    ⟨12, "0.5", 2⟩ rfl (by decide) (by decide)

/-- C4 counterexample: on [(10, "0.5"), (12, "0.75")] every handicap of the
window occurs exactly once (a full tie), the most recently seen candidate is
"0.75", yet the returned quote carries "0.5": the strict `>` scan keeps the
FIRST enumerated candidate on a tie. -/
theorem getLatestMainMarketOdd_full_tie_cex :
    handicapCounts (windowOf [⟨10, "0.5", 1⟩, ⟨12, "0.75", 2⟩]) =
        [("0.5", 1), ("0.75", 1)] ∧
      (getLatestMainMarketOdd [⟨10, "0.5", 1⟩, ⟨12, "0.75", 2⟩]).map
        OddsHistoryItem.handicap = some "0.5" ∧
      ("0.5" : String) ≠ "0.75" :=
  ⟨by decide, by decide, by decide⟩

/-- C4 (amended): under a full frequency tie in the window, the returned
quote carries the handicap of the FIRST candidate in the `for...in`
enumeration order of the frequency table (array-index-like handicaps in
ascending numeric order first, then first-occurrence order), provided that
handicap is a non-empty string — not the most recently seen candidate. -/
theorem getLatestMainMarketOdd_full_tie (history : List OddsHistoryItem)
    (h : String) (k : Nat) (rest : List (String × Nat))
    (henum : forInOrder (handicapCounts (windowOf history)) = (h, k) :: rest)
    (htie : ∀ p ∈ rest, p.2 = k) (hne : h ≠ "") :
    ∃ item, getLatestMainMarketOdd history = some item ∧ item.handicap = h := by
  cases hlast : history.getLast? with
  | none =>
    exfalso
    unfold windowOf at henum
    rw [hlast] at henum
    have hz : forInOrder (handicapCounts ([] : List OddsHistoryItem)) = [] := rfl
    rw [hz] at henum
    exact List.cons_ne_nil _ _ henum.symm
  | some lastEntry =>
    have hwineq : windowOf history = recentOddsOf history lastEntry := by
      unfold windowOf
      rw [hlast]
    rw [hwineq] at henum
    obtain ⟨spec1, spec2⟩ := handicapCounts_spec (recentOddsOf history lastEntry)
    have hmemhead : (h, k) ∈ handicapCounts (recentOddsOf history lastEntry) := by
      have hmem : (h, k) ∈ forInOrder (handicapCounts (recentOddsOf history lastEntry)) := by
        rw [henum]
        exact List.mem_cons_self _ _
      exact (mem_forInOrder _ _).mp hmem
    have hk0 : 0 < k := (spec1 (h, k) hmemhead).2
    have hsel : selectMaxKey (forInOrder (handicapCounts (recentOddsOf history lastEntry))) =
        some h := by
      rw [henum]
      exact selectMaxKey_head h k rest hk0 (fun p hp => le_of_eq (htie p hp))
    have hpos : 0 < countOcc (recentOddsOf history lastEntry) h :=
      (spec1 (h, k) hmemhead).1 ▸ hk0
    obtain ⟨o, ho, hoh⟩ := List.countP_pos_iff.mp hpos
    have hempty := isEmpty_false_of_mem _ o ho
    obtain ⟨item, hitem, hih⟩ :=
      latestWith_of_occ history h o (List.mem_filter.mp ho).1 (by simpa using hoh)
    refine ⟨item, ?_, hih⟩
    rw [getLatestMainMarketOdd_of_getLast history lastEntry hlast]
    exact mainOddFor_found history lastEntry hempty h hsel hne item hitem

/-- Witness for the amended C4 at the tied two-point history. -/
theorem getLatestMainMarketOdd_full_tie_witness :
    ∃ item, getLatestMainMarketOdd [⟨10, "0.5", 1⟩, ⟨12, "0.75", 2⟩] = some item ∧
      item.handicap = "0.5" :=
  getLatestMainMarketOdd_full_tie [⟨10, "0.5", 1⟩, ⟨12, "0.75", 2⟩] "0.5" 1
    [("0.75", 1)] (by decide) (by decide) (by decide)

/-! ### Claim theorems: stats parser (C5) -/

/-- A successful projection of the parsed record is the pair the `parse`
helper produced for that key. -/
theorem statField_parseStats (stats : Option StatsMap) (key : String)
    (pv : Option Int × Option Int)
    (hproj : statField (parseStats stats) key = some pv) :
    pv = parsePair stats key := by
  unfold statField at hproj
  split_ifs at hproj <;>
    first
      | exact Option.noConfusion hproj
      | (injection hproj with hh
         subst_vars
         rfl)

/-- C5: for every input mapping (including the absent one), each of the seven
named keys that is missing or whose value is not a two-element array parses
to exactly [0, 0]; and a key whose value is a well-formed two-element array
of integer strings parses to the two integers in order [home, away]. -/
theorem parseStats_pairs (stats : Option StatsMap) (key : String)
    (pv : Option Int × Option Int)
    (hproj : statField (parseStats stats) key = some pv) :
    (jsRecordGet stats key = none → pv = (some 0, some 0)) ∧
      (∀ arr, jsRecordGet stats key = some arr → arr.length ≠ 2 →
        pv = (some 0, some 0)) ∧
      (∀ (s₁ s₂ : String) (a b : Int), jsRecordGet stats key = some [s₁, s₂] →
        s₁ ≠ "" → s₂ ≠ "" → jsParseInt s₁ = some a → jsParseInt s₂ = some b →
        pv = (some a, some b)) := by
  have hpv := statField_parseStats stats key pv hproj
  refine ⟨?_, ?_, ?_⟩
  · intro hnone
    rw [hpv]
    simp [parsePair, hnone]
  · intro arr harr hlen
    rw [hpv]
    simp [parsePair, harr, hlen]
  · intro s₁ s₂ a b harr h1 h2 hp1 hp2
    rw [hpv]
    simp [parsePair, harr, jsOrDefault, h1, h2, hp1, hp2]

/-- Witness for C5: the key "corners" with value ["3", "1"] parses to the
pair (3, 1), and a missing key parses to (0, 0). -/
theorem parseStats_pairs_witness :
    statField (parseStats (some [("corners", ["3", "1"])])) "corners" =
        some (some 3, some 1) ∧
      ((some 3 : Option Int), (some 1 : Option Int)) = (some 3, some 1) ∧
      statField (parseStats (some [("corners", ["3", "1"])])) "attacks" =
        some (some 0, some 0) ∧
      ((some 0 : Option Int), (some 0 : Option Int)) = (some 0, some 0) :=
  ⟨by decide,
    (parseStats_pairs (some [("corners", ["3", "1"])]) "corners" (some 3, some 1)
        (by decide)).2.2 "3" "1" 3 1 (by decide) (by decide) (by decide)
      (by decide) (by decide),
    by decide,
    (parseStats_pairs (some [("corners", ["3", "1"])]) "attacks" (some 0, some 0)
        (by decide)).1 (by decide)⟩

/-! ### Claim theorems: ticket settlement (C6) -/

/-- C6: for every ticket with positive stake and odds the settlement profit
is won → stake×(odds−1), lost → −stake, push → 0, half-won → stake×(odds−1)/2,
half-lost → −stake/2, pending → 0; in particular stake 100 at odds 1.95 wins
+95, loses −100, and stake 100 at odds 2.00 half-wins +50. -/
theorem calculateProfitLoss_spec (t : BetTicket) (hs : 0 < t.stake)
    (ho : 0 < t.odds) :
    (t.status = TicketStatus.won → calculateProfitLoss t = t.stake * (t.odds - 1)) ∧
      (t.status = TicketStatus.lost → calculateProfitLoss t = -t.stake) ∧
      (t.status = TicketStatus.push → calculateProfitLoss t = 0) ∧
      (t.status = TicketStatus.won_half →
        calculateProfitLoss t = t.stake * (t.odds - 1) / 2) ∧
      (t.status = TicketStatus.lost_half → calculateProfitLoss t = -t.stake / 2) ∧
      (t.status = TicketStatus.pending → calculateProfitLoss t = 0) ∧
      calculateProfitLoss
        { t with stake := 100, odds := 1.95, status := TicketStatus.won } = 95 ∧
      calculateProfitLoss { t with stake := 100, status := TicketStatus.lost } = -100 ∧
      calculateProfitLoss
        { t with stake := 100, odds := 2, status := TicketStatus.won_half } = 50 := by
  refine ⟨?_, ?_, ?_, ?_, ?_, ?_, ?_, ?_, ?_⟩
  · intro h
    simp [calculateProfitLoss, h]
    ring
  · intro h
    simp [calculateProfitLoss, h]
  · intro h
    simp [calculateProfitLoss, h]
  · intro h
    simp [calculateProfitLoss, h]
    ring
  · intro h
    simp [calculateProfitLoss, h]
    ring
  · intro h
    simp [calculateProfitLoss, h]
  · simp [calculateProfitLoss]
    norm_num
  · simp [calculateProfitLoss]
  · simp [calculateProfitLoss]
    norm_num

/-- Witness for C6: a won ticket with stake 100 and odds 1.95. -/
theorem calculateProfitLoss_spec_witness :
    calculateProfitLoss
        ⟨1, "m1", "Tài", "0.5", 1.95, 100, 30, TicketStatus.won, ""⟩ =
      100 * (1.95 - 1) :=
  (calculateProfitLoss_spec ⟨1, "m1", "Tài", "0.5", 1.95, 100, 30, TicketStatus.won, ""⟩
    (by norm_num) (by norm_num)).1 rfl

/-! ### Claim theorems: pressure score (C7) -/

/-- C7: the API pressure score is monotonically non-decreasing in each of
shots on target, shots off target, corners and dangerous attacks (stated
jointly, which subsumes each input individually with the others fixed); and
every point of `apiChartData` has `gap = homeApi - awayApi` exactly. -/
theorem calculateAPIScore_monotone_gap :
    (∀ (s t : ProcessedStats) (i : Fin 2),
        sideVal s.on_target i ≤ sideVal t.on_target i →
        sideVal s.off_target i ≤ sideVal t.off_target i →
        sideVal s.corners i ≤ sideVal t.corners i →
        sideVal s.dangerous_attacks i ≤ sideVal t.dangerous_attacks i →
        calculateAPIScore (some s) i ≤ calculateAPIScore (some t) i) ∧
      ∀ (statsHistory : List (Int × ProcessedStats)) (e : ApiPoint),
        e ∈ apiChartData statsHistory → e.gap = e.homeApi - e.awayApi := by
  constructor
  · intro s t i h1 h2 h3 h4
    unfold calculateAPIScore
    have h07 : (0 : ℚ) ≤ 0.7 := by norm_num
    have h01 : (0 : ℚ) ≤ 0.1 := by norm_num
    nlinarith [h1, h2, h3, h4]
  · intro statsHistory e he
    unfold apiChartData at he
    rcases List.mem_map.mp he with ⟨m, hm, rfl⟩
    rfl

/-- Witness for C7: a concrete increase of all four inputs does not decrease
the home score. -/
theorem calculateAPIScore_monotone_gap_witness :
    calculateAPIScore
        (some ⟨(1, 1), (2, 2), (1, 0), (2, 0), (1, 0), (0, 0), (0, 0)⟩) 0 ≤
      calculateAPIScore
        (some ⟨(1, 1), (4, 2), (2, 0), (3, 0), (2, 0), (0, 0), (0, 0)⟩) 0 :=
  calculateAPIScore_monotone_gap.1
    ⟨(1, 1), (2, 2), (1, 0), (2, 0), (1, 0), (0, 0), (0, 0)⟩
    ⟨(1, 1), (4, 2), (2, 0), (3, 0), (2, 0), (0, 0), (0, 0)⟩ 0
    (by norm_num [sideVal]) (by norm_num [sideVal]) (by norm_num [sideVal])
    (by norm_num [sideVal])

/-! ### Claim theorems: tension level (C8) -/

/-- Folding addition of `f` over a list accumulates onto the initial value. -/
theorem foldl_add_eq (f : ApiPoint → ℚ) (l : List ApiPoint) :
    ∀ acc : ℚ, l.foldl (fun a c => a + f c) acc = acc + (l.map f).sum := by
  induction l with
  | nil => intro acc; simp
  | cons c rest ih =>
    intro acc
    rw [List.foldl_cons, ih (acc + f c), List.map_cons, List.sum_cons]
    ring

/-- The trailing-window sum used by `tensionLevel` equals the sum of the
absolute per-minute totals over the reversed-take window. -/
theorem sumAbsTotal_drop (l : List ApiPoint) (n : Nat) :
    sumAbsTotal (l.drop (l.length - n)) =
      ((l.reverse.take n).map (fun p => |p.homeApi + p.awayApi|)).sum := by
  have hd : l.drop (l.length - n) = (l.reverse.take n).reverse := by
    rw [← List.rtake, List.rtake_eq_reverse_take_reverse]
  rw [hd]
  unfold sumAbsTotal
  rw [foldl_add_eq, List.map_reverse, List.sum_reverse]
  ring

/-- C8 counterexample: on five points with equal home and away scores (gap 0
everywhere), the claimed gap-based formula gives the floor value 10 while
`tensionLevel` (5-point variant) returns 100: the source sums
`|homeApi + awayApi|`, not the absolute gap. -/
theorem tensionLevel_gap_cex :
    tensionLevel5
        [⟨1, 20, 20, 0⟩, ⟨2, 20, 20, 0⟩, ⟨3, 20, 20, 0⟩, ⟨4, 20, 20, 0⟩,
          ⟨5, 20, 20, 0⟩] = 100 ∧
      tensionSpecGap5
        [⟨1, 20, 20, 0⟩, ⟨2, 20, 20, 0⟩, ⟨3, 20, 20, 0⟩, ⟨4, 20, 20, 0⟩,
          ⟨5, 20, 20, 0⟩] = 10 ∧
      (10 : ℚ) ≠ 100 := by
  refine ⟨?_, ?_, by norm_num⟩
  · show min 100 (max 10 (sumAbsTotal
        [⟨1, 20, 20, 0⟩, ⟨2, 20, 20, 0⟩, ⟨3, 20, 20, 0⟩, ⟨4, 20, 20, 0⟩,
          ⟨5, 20, 20, 0⟩] * 2)) = 100
    rw [show sumAbsTotal
        [⟨1, 20, 20, 0⟩, ⟨2, 20, 20, 0⟩, ⟨3, 20, 20, 0⟩, ⟨4, 20, 20, 0⟩,
          ⟨5, 20, 20, 0⟩] = 200 from by
      unfold sumAbsTotal
      norm_num [List.foldl, abs_of_nonneg]]
    norm_num [min_def, max_def]
  · unfold tensionSpecGap5
    norm_num [List.reverse, List.take, abs_of_nonneg, min_def, max_def]

/-- C8 (amended): for a series at least as long as the window, the tension
level equals the clamped constant multiple of the summed absolute per-minute
TOTAL `|homeApi + awayApi|` over the trailing window (factor 2 and clamp
[10, 100] for the 5-point variant, factor 3.5 and clamp [15, 100] for the
3-point variant); a shorter series yields the constant 20; and the returned
value always lies in [10, 100] (respectively [15, 100]). -/
theorem tensionLevel_spec :
    (∀ d : List ApiPoint, 5 ≤ d.length → tensionLevel5 d = tensionSpecTotal5 d) ∧
      (∀ d : List ApiPoint, 3 ≤ d.length → tensionLevel3 d = tensionSpecTotal3 d) ∧
      (∀ d : List ApiPoint, d.length < 5 → tensionLevel5 d = 20) ∧
      (∀ d : List ApiPoint, d.length < 3 → tensionLevel3 d = 20) ∧
      (∀ d : List ApiPoint, 10 ≤ tensionLevel5 d ∧ tensionLevel5 d ≤ 100) ∧
      (∀ d : List ApiPoint, 15 ≤ tensionLevel3 d ∧ tensionLevel3 d ≤ 100) := by
  refine ⟨?_, ?_, ?_, ?_, ?_, ?_⟩
  · intro d hd
    unfold tensionLevel5 tensionSpecTotal5
    rw [if_neg (by omega), sumAbsTotal_drop, mul_comm]
  · intro d hd
    unfold tensionLevel3 tensionSpecTotal3
    rw [if_neg (by omega), sumAbsTotal_drop, mul_comm]
    norm_num
  · intro d hd
    unfold tensionLevel5
    rw [if_pos hd]
  · intro d hd
    unfold tensionLevel3
    rw [if_pos hd]
  · intro d
    unfold tensionLevel5
    by_cases hd : d.length < 5
    · rw [if_pos hd]
      norm_num
    · rw [if_neg hd]
      constructor
      · exact le_min (by norm_num) (le_trans (by norm_num) (le_max_left 10 _))
      · exact min_le_left _ _
  · intro d
    unfold tensionLevel3
    by_cases hd : d.length < 3
    · rw [if_pos hd]
      norm_num
    · rw [if_neg hd]
      constructor
      · exact le_min (by norm_num) (le_trans (by norm_num) (le_max_left 15 _))
      · exact min_le_left _ _

/-- Witness for the amended C8 at a concrete five-point series. -/
theorem tensionLevel_spec_witness :
    tensionLevel5
        [⟨1, 1, 2, -1⟩, ⟨2, 2, 1, 1⟩, ⟨3, 0, 0, 0⟩, ⟨4, 3, 1, 2⟩, ⟨5, 1, 1, 0⟩] =
      tensionSpecTotal5
        [⟨1, 1, 2, -1⟩, ⟨2, 2, 1, 1⟩, ⟨3, 0, 0, 0⟩, ⟨4, 3, 1, 2⟩, ⟨5, 1, 1, 0⟩] :=
  tensionLevel_spec.1
    [⟨1, 1, 2, -1⟩, ⟨2, 2, 1, 1⟩, ⟨3, 0, 0, 0⟩, ⟨4, 3, 1, 2⟩, ⟨5, 1, 1, 0⟩]
    (by decide)

/-! ### Claim theorems: odds/match client error handling (C9) -/

/-- C9: whenever the underlying fetch fails (`Except.error`, covering network
errors, non-2xx after retries and thrown parse errors) or produces an empty
body (`Except.ok none`), the three client functions return the empty list
(`getInPlayEvents`) or `none` (`getMatchDetails`, `getMatchOdds`); and on
every input they return `Except.ok`, i.e. no exception escapes. -/
theorem client_failures_no_data :
    (∀ token err : String, getInPlayEvents token (Except.error err) = Except.ok []) ∧
      (∀ token eventId err : String,
        getMatchDetails token eventId (Except.error err) = Except.ok none) ∧
      (∀ token eventId err : String,
        getMatchOdds token eventId (Except.error err) = Except.ok none) ∧
      (∀ token : String, getInPlayEvents token (Except.ok none) = Except.ok []) ∧
      (∀ token eventId : String,
        getMatchDetails token eventId (Except.ok none) = Except.ok none) ∧
      (∀ token eventId : String,
        getMatchOdds token eventId (Except.ok none) = Except.ok none) ∧
      (∀ (token : String) (fetched : Except String (Option InPlayBody)),
        ∃ v, getInPlayEvents token fetched = Except.ok v) ∧
      (∀ (token eventId : String) (fetched : Except String (Option InPlayBody)),
        ∃ v, getMatchDetails token eventId fetched = Except.ok v) ∧
      (∀ (token eventId : String) (fetched : Except String (Option OddsBody)),
        ∃ v, getMatchOdds token eventId fetched = Except.ok v) := by
  refine ⟨?_, ?_, ?_, ?_, ?_, ?_, ?_, ?_, ?_⟩
  · intro token err
    unfold getInPlayEvents
    split_ifs <;> rfl
  · intro token eventId err
    unfold getMatchDetails
    split_ifs <;> rfl
  · intro token eventId err
    unfold getMatchOdds
    split_ifs <;> rfl
  · intro token
    unfold getInPlayEvents
    split_ifs <;> rfl
  · intro token eventId
    unfold getMatchDetails
    split_ifs <;> rfl
  · intro token eventId
    unfold getMatchOdds
    split_ifs <;> rfl
  · intro token fetched
    unfold getInPlayEvents
    split_ifs
    · exact ⟨[], rfl⟩
    · exact ⟨[], rfl⟩
    · cases fetched with
      | error e => exact ⟨[], rfl⟩
      | ok data => exact ⟨inPlayResult data, rfl⟩
  · intro token eventId fetched
    unfold getMatchDetails
    split_ifs
    · exact ⟨none, rfl⟩
    · cases fetched with
      | error e => exact ⟨none, rfl⟩
      | ok data => exact ⟨_, rfl⟩
  · intro token eventId fetched
    unfold getMatchOdds
    split_ifs
    · exact ⟨none, rfl⟩
    · cases fetched with
      | error e => exact ⟨none, rfl⟩
      | ok data => exact ⟨oddsResult data, rfl⟩

/-! ### Claim theorems: ticket store frame property (C10) -/

/-- C10: a ticket operation scoped to match `matchId` and saved through
`saveAllTickets` leaves the stored tickets of every other match unchanged:
the other-match sublist of the store is preserved exactly. -/
theorem saveAllTickets_frame (stored : List BetTicket) (matchId : String)
    (updated : List BetTicket) (hupd : ∀ t ∈ updated, t.matchId = matchId) :
    (saveAllTickets stored matchId updated).filter (fun t => t.matchId != matchId) =
      stored.filter (fun t => t.matchId != matchId) := by
  unfold saveAllTickets
  rw [List.filter_append]
  have hupd2 : updated.filter (fun t => t.matchId != matchId) = [] := by
    rw [List.filter_eq_nil_iff]
    intro t ht
    simp [hupd t ht]
  rw [hupd2, List.append_nil, List.filter_filter]
  simp

/-- Witness for C10: updating match "A" preserves the stored ticket of
match "B". -/
theorem saveAllTickets_frame_witness :
    (saveAllTickets
          [⟨1, "A", "Tài", "0.5", 2, 100, 10, TicketStatus.pending, ""⟩,
            ⟨2, "B", "Xỉu", "1", 2, 50, 20, TicketStatus.won, ""⟩] "A"
          [⟨3, "A", "Tài", "0.75", 2, 80, 30, TicketStatus.pending, ""⟩]).filter
        (fun t => t.matchId != "A") =
      [⟨1, "A", "Tài", "0.5", 2, 100, 10, TicketStatus.pending, ""⟩,
        ⟨2, "B", "Xỉu", "1", 2, 50, 20, TicketStatus.won, ""⟩].filter
        (fun t => t.matchId != "A") :=
  saveAllTickets_frame
    [⟨1, "A", "Tài", "0.5", 2, 100, 10, TicketStatus.pending, ""⟩,
      ⟨2, "B", "Xỉu", "1", 2, 50, 20, TicketStatus.won, ""⟩] "A"
    [⟨3, "A", "Tài", "0.75", 2, 80, 30, TicketStatus.pending, ""⟩] (by decide)

end ProFootball
